import Mathlib

/-!
Verification of the archetype storage primitive (`src/archetype.rs`).

The Rust code is shallowly embedded: `usize` arithmetic is `Nat` with an
explicit `% 2 ^ 64` where wrapping matters, the backing buffer of
`MaybeUninit<u8>` bytes is a function `Nat → Option Nat` (`none` models an
uninitialized byte), `TypeId` and entity ids are `Nat`, the `FxHashMap` of
column offsets is an association list, and panics (failed `debug_assert!`,
slice-bound violations, `Option::unwrap` on `None`) are `Except.error`.
Calls into the type-erased destructor thunks and into the `move_to` visitor
are recorded as `Event`s.
-/

/-- Bytes of a backing buffer: address to byte, `none` when uninitialized. -/
def Data : Type := Nat → Option Nat

/-- Metadata required to store a component (`TypeInfo` in the source):
type identity, the layout pair, and the type-erased destructor thunk,
which ordering and equality must never inspect (modelled as an opaque tag). -/
structure TypeInfo where
  id : Nat
  size : Nat
  align : Nat
  drop : Nat
deriving DecidableEq

/-- The archetype record: descriptor sequence, offset table, live row count,
entity-id sidecar (its list length is the capacity) and the backing buffer
together with its byte length. -/
structure Archetype where
  types : List TypeInfo
  offsets : List (Nat × Nat)
  len : Nat
  entities : List Nat
  data : Data
  dataSize : Nat

/-- Observable calls made by row-removal code: visitor invocations
(`f(ptr, type_id, size)` in `move_to`) and destructor-thunk invocations
(`(ty.drop)(ptr)` in `remove`). -/
inductive Event where
  | visit (addr tyId sz : Nat) : Event
  | dropCall (addr tyId : Nat) : Event
deriving DecidableEq

/-- The `!0u32` sentinel used to fill fresh sidecar slots. -/
def SENTINEL : Nat := 4294967295

/-- `ptr::copy_nonoverlapping(src + srcOff, dst + dstOff, n)` on byte buffers. -/
def copyBytes (src : Data) (srcOff : Nat) (dst : Data) (dstOff n : Nat) : Data :=
  fun addr => if dstOff ≤ addr ∧ addr < dstOff + n then src (srcOff + (addr - dstOff)) else dst addr

/-- The rounding helper `fn align(x, alignment)` from the source:
`(x + alignment - 1) & (!alignment + 1)` on `usize`, with two's-complement
negation written out over `Nat`.  The `assert!(alignment.is_power_of_two())`
is reflected as a hypothesis of the theorems about this function. -/
def align (x alignment : Nat) : Nat :=
  ((x + alignment - 1) % 2 ^ 64) &&& ((2 ^ 64 - 1 - alignment + 1) % 2 ^ 64)

/-- One step of the offset/size loop in `Archetype::allocate`:
round the cursor up to the type's alignment, record the offset for its id,
then advance by `size * count`. -/
def layoutStep (count : Nat) (acc : List (Nat × Nat) × Nat) (ty : TypeInfo) :
    List (Nat × Nat) × Nat :=
  (acc.1 ++ [(ty.id, align acc.2 ty.align)], align acc.2 ty.align + ty.size * count)

/-- The offsets map and total buffer size computed by `Archetype::allocate`
for a given capacity `count`. -/
def computeLayout (types : List TypeInfo) (count : Nat) : List (Nat × Nat) × Nat :=
  types.foldl (layoutStep count) ([], 0)

/-- Modelled from the spec (§4.2): mathematical rounding of `x` up to a
multiple of `a`, used to state that the code's bit-trick `align` implements
the cursor algorithm. -/
def round_up (x a : Nat) : Nat := a * ((x + a - 1) / a)

/-- Modelled from the spec (§4.2): the per-type offsets of the cursor
algorithm, starting from cursor `c`. -/
def specOffsets (count : Nat) : Nat → List TypeInfo → List (Nat × Nat)
  | _, [] => []
  | c, ty :: rest =>
    (ty.id, round_up c ty.align) :: specOffsets count (round_up c ty.align + ty.size * count) rest

/-- Modelled from the spec (§4.2): the final cursor `S` of the cursor
algorithm, starting from cursor `c`. -/
def specSize (count : Nat) : Nat → List TypeInfo → Nat
  | c, [] => c
  | c, ty :: rest => specSize count (round_up c ty.align + ty.size * count) rest

/-- `Archetype::new`: empty container with the given descriptor sequence. -/
def Archetype.new (types : List TypeInfo) : Archetype :=
  { types := types, offsets := [], len := 0, entities := [],
    data := fun _ => none, dataSize := 0 }

/-- Offset of the column of descriptor `ty`, as `Archetype::remove` and
`Archetype::move_to` read it: `self.offsets.get(&ty.id).unwrap()`.  The
theorems that rely on it hypothesise that the lookup succeeds. -/
def colOff (a : Archetype) (ty : TypeInfo) : Nat :=
  (List.lookup ty.id a.offsets).getD 0

/-- `Archetype::entity_id`: `self.entities[index]`, a slice access that
panics (in every build) when the index is at or beyond the sidecar length. -/
def entity_id (a : Archetype) (index : Nat) : Except String Nat :=
  if index < a.entities.length then Except.ok (a.entities.getD index 0)
  else Except.error "index out of bounds"

/-- `Archetype::get_dynamic` in a debug build: `debug_assert!(index < self.len)`,
then `self.offsets.get(&ty)` drives the optional result; the caller-supplied
`size` is used directly for the address arithmetic. -/
def get_dynamic (a : Archetype) (ty sz index : Nat) : Except String (Option Nat) :=
  if index < a.len then
    Except.ok ((List.lookup ty a.offsets).map (fun off => off + sz * index))
  else Except.error "assertion failed: index < self.len"

/-- `Archetype::data::<T>` (the spec's `column<T>`): base address of the
column for a type id, or `none` when absent. -/
def Archetype.column (a : Archetype) (ty : Nat) : Option Nat :=
  List.lookup ty a.offsets

/-- `Archetype::put_dynamic`: `get_dynamic(ty, size, index).unwrap()` then a
byte copy of `size` bytes from the component into the row slot. -/
def put_dynamic (a : Archetype) (component : Data) (ty sz index : Nat) :
    Except String Archetype :=
  match get_dynamic a ty sz index with
  | Except.error e => Except.error e
  | Except.ok none => Except.error "Option unwrap failed"
  | Except.ok (some addr) =>
      Except.ok { a with data := copyBytes component 0 a.data addr sz }

/-- `Archetype::allocate`: append a row in place when there is spare capacity,
otherwise grow the sidecar (64 or doubling), recompute the layout, byte-copy
every column into the fresh buffer and then append.  Returns the new row's
index, i.e. the old `len`. -/
def Archetype.allocate (a : Archetype) (id : Nat) : Archetype × Nat :=
  if a.len < a.entities.length then
    ({ a with entities := a.entities.set a.len id, len := a.len + 1 }, a.len)
  else
    let old_count := a.entities.length
    let count := if old_count = 0 then 64 else old_count * 2
    let entities1 := a.entities ++ List.replicate (count - old_count) SENTINEL
    let L := computeLayout a.types count
    let newData : Data :=
      if a.dataSize ≠ 0 then
        a.types.foldl
          (fun d ty =>
            copyBytes a.data ((List.lookup ty.id a.offsets).getD 0) d
              ((List.lookup ty.id L.1).getD 0) (ty.size * old_count))
          (fun _ => none)
      else fun _ => none
    ({ a with
        entities := entities1.set a.len id
        len := a.len + 1
        data := newData
        offsets := L.1
        dataSize := L.2 }, a.len)

/-- The per-type loop shared by `Archetype::remove` and `Archetype::move_to`:
for each descriptor in order, record the event for row `index`'s slot, and,
unless the row is the last one, byte-copy the last row's slot over it. -/
def compactFold (a : Archetype) (index : Nat) (mk : Nat → TypeInfo → Event) :
    List Event × Data :=
  a.types.foldl
    (fun p ty =>
      (p.1 ++ [mk (colOff a ty + ty.size * index) ty],
        if index ≠ a.len - 1 then
          copyBytes p.2 (colOff a ty + ty.size * (a.len - 1)) p.2
            (colOff a ty + ty.size * index) ty.size
        else p.2))
    ([], a.data)

/-- `Archetype::remove`: drop each column's row `index`, swap the last row
into its place, decrement `len`, and report the displaced entity id. -/
def Archetype.remove (a : Archetype) (index : Nat) :
    Archetype × Option Nat × List Event :=
  let p := compactFold a index (fun addr ty => Event.dropCall addr ty.id)
  let a' := { a with data := p.2, len := a.len - 1 }
  if index ≠ a.len - 1 then
    let ents := a'.entities.set index (a'.entities.getD (a.len - 1) 0)
    ({ a' with entities := ents }, some (ents.getD (a.len - 1) 0), p.1)
  else
    (a', none, p.1)

/-- `Archetype::move_to`: visit each column's row `index` slot in descriptor
order, swap the last row into its place, update the sidecar and decrement
`len`.  The Rust function returns `()`: the pair below carries the visitor
calls and the mutated archetype, which is all a caller can observe. -/
def Archetype.move_to (a : Archetype) (index : Nat) : List Event × Archetype :=
  let p := compactFold a index (fun addr ty => Event.visit addr ty.id ty.size)
  let ents :=
    if index ≠ a.len - 1 then a.entities.set index (a.entities.getD (a.len - 1) 0)
    else a.entities
  (p.1, { a with data := p.2, entities := ents, len := a.len - 1 })

/-- `TypeInfo::cmp`: order by alignment, descending; ties broken with the id. -/
def TypeInfo.cmp (a b : TypeInfo) : Ordering :=
  ((compare a.align b.align).swap).then (compare a.id b.id)

/-- `TypeInfo::eq`: equality compares the ids only. -/
def TypeInfo.beq (a b : TypeInfo) : Bool :=
  a.id == b.id

/-- Columns of an archetype occupy pairwise disjoint byte ranges out to row
`len`; this is the state invariant delivered by the layout computation and
assumed by the row-compaction proofs. -/
def ColumnsDisjoint (a : Archetype) : Prop :=
  a.types.Pairwise (fun t u =>
    colOff a t + t.size * a.len ≤ colOff a u ∨ colOff a u + u.size * a.len ≤ colOff a t)

/-- The buffer contents produced by the compaction loop of `remove`/`move_to`. -/
def compactData (a : Archetype) (index : Nat) : Data :=
  a.types.foldl
    (fun d ty =>
      if index ≠ a.len - 1 then
        copyBytes d (colOff a ty + ty.size * (a.len - 1)) d
          (colOff a ty + ty.size * index) ty.size
      else d)
    a.data

/-- Sample descriptor: the spec's scenario type `A` (size 4, align 4). -/
def T1 : TypeInfo := { id := 1, size := 4, align := 4, drop := 0 }

/-- Sample descriptor: the spec's scenario type `B` (size 1, align 1). -/
def T2 : TypeInfo := { id := 2, size := 1, align := 1, drop := 0 }

/-- A fully initialized sample buffer with recognizable bytes. -/
def someBytes : Data := fun addr => some (addr + 100)

/-- Sample archetype with two columns, three live rows, capacity four.
Offsets and buffer size are the layout for capacity 4. -/
def arch2 : Archetype :=
  { types := [T1, T2], offsets := [(1, 0), (2, 16)], len := 3,
    entities := [10, 20, 30, 40], data := someBytes, dataSize := 20 }

/-- Sample archetype at full capacity (len = capacity = 2), as required to
trigger reallocation in `allocate`. -/
def archFull : Archetype :=
  { types := [T1, T2], offsets := [(1, 0), (2, 8)], len := 2,
    entities := [10, 20], data := someBytes, dataSize := 10 }

/-- Source archetype for the migration counterexample. -/
def c6A : Archetype :=
  { types := [T1], offsets := [(1, 0)], len := 3,
    entities := [10, 20, 30, SENTINEL], data := fun _ => some 0, dataSize := 16 }

/-- Identical to `c6A` except that the last live row belongs to entity 99. -/
def c6B : Archetype :=
  { types := [T1], offsets := [(1, 0)], len := 3,
    entities := [10, 20, 99, SENTINEL], data := fun _ => some 0, dataSize := 16 }

/-- Sample archetype with a single column of size 4 and two live rows. -/
def c7A : Archetype :=
  { types := [T1], offsets := [(1, 0)], len := 2,
    entities := [10, 20], data := fun _ => some 0, dataSize := 8 }

/-- Sample archetype whose sidecar is longer than its live row count. -/
def c8A : Archetype :=
  { types := [T1], offsets := [(1, 0)], len := 2,
    entities := [10, 20, SENTINEL, SENTINEL], data := fun _ => some 0, dataSize := 16 }

/-- The spec's swap-remove scenario: three rows inserted with entity ids
10, 20, 30 (through `allocate`, so the first insertion grows capacity to 64). -/
def scen3 : Archetype :=
  ((((Archetype.new []).allocate 10).1.allocate 20).1.allocate 30).1

/-! ### List helpers -/

theorem getD_set_self (l : List Nat) (i v : Nat) (h : i < l.length) :
    (l.set i v).getD i 0 = v := by
  simp [List.getD_eq_getElem?_getD, List.getElem?_set_self, h]

theorem getD_set_other (l : List Nat) (i j v : Nat) (h : i ≠ j) :
    (l.set i v).getD j 0 = l.getD j 0 := by
  simp [List.getD_eq_getElem?_getD, List.getElem?_set_ne h]

theorem map_snd_zip_of_length_eq {α β : Type} :
    ∀ (l₁ : List α) (l₂ : List β), l₁.length = l₂.length →
      (l₁.zip l₂).map Prod.snd = l₂ := by
  intro l₁ l₂ h
  exact List.map_snd_zip l₁ l₂ (le_of_eq h.symm)

/-! ### Projections of the paired folds used by `remove` and `move_to` -/

theorem foldl_pair {α : Type} (g : TypeInfo → α) (st : Data → TypeInfo → Data) :
    ∀ (l : List TypeInfo) (evs : List α) (d : Data),
      l.foldl (fun p ty => (p.1 ++ [g ty], st p.2 ty)) (evs, d)
        = (evs ++ l.map g, l.foldl st d) := by
  intro l
  induction l with
  | nil => intro evs d; simp
  | cons ty rest ih =>
    intro evs d
    simp only [List.foldl_cons, List.map_cons]
    rw [ih]
    simp

theorem compactFold_eq (a : Archetype) (index : Nat) (mk : Nat → TypeInfo → Event) :
    compactFold a index mk
      = (a.types.map (fun ty => mk (colOff a ty + ty.size * index) ty),
          compactData a index) := by
  unfold compactFold compactData
  rw [foldl_pair (fun ty => mk (colOff a ty + ty.size * index) ty)
    (fun d ty =>
      if index ≠ a.len - 1 then
        copyBytes d (colOff a ty + ty.size * (a.len - 1)) d
          (colOff a ty + ty.size * index) ty.size
      else d)]
  simp

theorem compactData_last (a : Archetype) (index : Nat) (h : index = a.len - 1) :
    compactData a index = a.data := by
  unfold compactData
  subst h
  simp only [ne_eq, not_true_eq_false, if_false]
  induction a.types with
  | nil => rfl
  | cons ty rest ih => simp only [List.foldl_cons]; exact ih

/-! ### The bit-trick rounding function -/

theorem land_high_mask (n k K : Nat) (hk : k ≤ K) (hn : n < 2 ^ K) :
    n &&& (2 ^ K - 2 ^ k) = 2 ^ k * (n / 2 ^ k) := by
  have hmask : 2 ^ K - 2 ^ k = (2 ^ (K - k) - 1) <<< k := by
    rw [Nat.shiftLeft_eq]
    have h1 : 2 ^ (K - k) * 2 ^ k = 2 ^ K := by
      rw [← pow_add]
      congr 1
      omega
    have h2 : 1 ≤ 2 ^ (K - k) := Nat.one_le_two_pow
    generalize hP : (2 ^ (K - k) - 1) * 2 ^ k = P
    have h3 : (2 ^ (K - k) - 1) * 2 ^ k = 2 ^ (K - k) * 2 ^ k - 1 * 2 ^ k :=
      Nat.sub_mul _ _ _
    rw [h1, one_mul] at h3
    omega
  have hdiv : 2 ^ k * (n / 2 ^ k) = (n >>> k) <<< k := by
    rw [Nat.shiftRight_eq_div_pow, Nat.shiftLeft_eq, Nat.mul_comm]
  apply Nat.eq_of_testBit_eq
  intro i
  rw [hmask, hdiv, Nat.testBit_land, Nat.testBit_shiftLeft, Nat.testBit_shiftLeft,
    Nat.testBit_two_pow_sub_one, Nat.testBit_shiftRight]
  by_cases h1 : k ≤ i
  · have hki : k + (i - k) = i := by omega
    rw [hki]
    by_cases h2 : i < K
    · have h3 : i - k < K - k := by omega
      simp [h1, h2, h3, ge_iff_le]
    · have h4 : n.testBit i = false := by
        apply Nat.testBit_lt_two_pow
        calc n < 2 ^ K := hn
          _ ≤ 2 ^ i := Nat.pow_le_pow_right (by omega) (by omega)
      have h3 : ¬(i - k < K - k) := by omega
      simp [h1, h3, h4, ge_iff_le]
  · simp [h1, ge_iff_le]

theorem align_eq_round_up (x k : Nat) (hk : k ≤ 63) (hx : x ≤ 2 ^ 63) :
    align x (2 ^ k) = round_up x (2 ^ k) := by
  unfold align round_up
  have h1 : 1 ≤ 2 ^ k := Nat.one_le_two_pow
  have hk2 : (2 : Nat) ^ k ≤ 2 ^ 63 := Nat.pow_le_pow_right (by omega) hk
  have hlt : x + 2 ^ k - 1 < 2 ^ 64 := by
    have : (2 : Nat) ^ 63 + 2 ^ 63 = 2 ^ 64 := by norm_num
    omega
  have hmod1 : (x + 2 ^ k - 1) % 2 ^ 64 = x + 2 ^ k - 1 := Nat.mod_eq_of_lt hlt
  have hnot : 2 ^ 64 - 1 - 2 ^ k + 1 = 2 ^ 64 - 2 ^ k := by
    have : (2 : Nat) ^ k < 2 ^ 64 := by
      have : (2 : Nat) ^ 63 < 2 ^ 64 := by norm_num
      omega
    omega
  have hmod2 : (2 ^ 64 - 1 - 2 ^ k + 1) % 2 ^ 64 = 2 ^ 64 - 2 ^ k := by
    rw [hnot]
    apply Nat.mod_eq_of_lt
    omega
  rw [hmod1, hmod2]
  exact land_high_mask (x + 2 ^ k - 1) k 64 (by omega) hlt

theorem round_up_mod (x a : Nat) : round_up x a % a = 0 := by
  unfold round_up
  exact Nat.mul_mod_right _ _

theorem le_round_up (x a : Nat) (ha : 0 < a) : x ≤ round_up x a := by
  unfold round_up
  have h1 := Nat.div_add_mod (x + a - 1) a
  have h2 : (x + a - 1) % a < a := Nat.mod_lt _ ha
  generalize hP : a * ((x + a - 1) / a) = P at h1 ⊢
  omega

/-! ### The layout computation -/

theorem le_specSize (count : Nat) :
    ∀ (l : List TypeInfo) (c : Nat), (∀ ty ∈ l, 0 < ty.align) →
      c ≤ specSize count c l := by
  intro l
  induction l with
  | nil => intro c _; exact le_refl c
  | cons ty rest ih =>
    intro c h
    have h1 : 0 < ty.align := h ty (by simp)
    have h2 : c ≤ round_up c ty.align := le_round_up c ty.align h1
    have h3 := ih (round_up c ty.align + ty.size * count) (fun u hu => h u (by simp [hu]))
    show c ≤ specSize count (round_up c ty.align + ty.size * count) rest
    omega

theorem layout_fold_eq (count : Nat) :
    ∀ (l : List TypeInfo) (c : Nat) (acc : List (Nat × Nat)),
      (∀ ty ∈ l, ∃ k, k ≤ 63 ∧ ty.align = 2 ^ k) →
      specSize count c l ≤ 2 ^ 63 →
      l.foldl (layoutStep count) (acc, c)
        = (acc ++ specOffsets count c l, specSize count c l) := by
  intro l
  induction l with
  | nil => intro c acc _ _; simp [specOffsets, specSize]
  | cons ty rest ih =>
    intro c acc hpow hS
    obtain ⟨k, hk, hal⟩ := hpow ty (by simp)
    have hpos : ∀ u ∈ ty :: rest, 0 < u.align := by
      intro u hu
      obtain ⟨k2, _, hal2⟩ := hpow u hu
      rw [hal2]
      exact Nat.pos_pow_of_pos _ (by omega)
    have hc : c ≤ 2 ^ 63 := le_trans (le_specSize count (ty :: rest) c hpos) hS
    have halign : align c ty.align = round_up c ty.align := by
      rw [hal]
      exact align_eq_round_up c k hk hc
    simp only [List.foldl_cons, layoutStep]
    rw [halign]
    rw [ih (round_up c ty.align + ty.size * count) (acc ++ [(ty.id, round_up c ty.align)])
      (fun u hu => hpow u (by simp [hu])) hS]
    simp [specOffsets, specSize]

theorem computeLayout_eq_spec (types : List TypeInfo) (count : Nat)
    (hpow : ∀ ty ∈ types, ∃ k, k ≤ 63 ∧ ty.align = 2 ^ k)
    (hS : specSize count 0 types ≤ 2 ^ 63) :
    computeLayout types count = (specOffsets count 0 types, specSize count 0 types) := by
  unfold computeLayout
  simpa using layout_fold_eq count types 0 [] hpow hS

theorem specOffsets_master (count : Nat) :
    ∀ (l : List TypeInfo) (c : Nat), (∀ ty ∈ l, 0 < ty.align) →
      List.Forall₂
        (fun (p : Nat × Nat) ty =>
          p.1 = ty.id ∧ p.2 % ty.align = 0 ∧ c ≤ p.2
            ∧ p.2 + ty.size * count ≤ specSize count c l)
        (specOffsets count c l) l := by
  intro l
  induction l with
  | nil => intro c _; simp [specOffsets]
  | cons ty rest ih =>
    intro c hpos
    have h1 : 0 < ty.align := hpos ty (by simp)
    have hcc : c ≤ round_up c ty.align := le_round_up c ty.align h1
    have htail := ih (round_up c ty.align + ty.size * count)
      (fun u hu => hpos u (by simp [hu]))
    constructor
    · exact ⟨rfl, round_up_mod c ty.align, hcc,
        le_specSize count rest _ (fun u hu => hpos u (by simp [hu]))⟩
    · exact htail.imp (fun p u hpu => ⟨hpu.1, hpu.2.1, by omega, hpu.2.2.2⟩)

theorem specOffsets_lookup (count : Nat) :
    ∀ (l : List TypeInfo) (c : Nat), (l.map TypeInfo.id).Nodup →
      ∀ pr ∈ (specOffsets count c l).zip l,
        List.lookup pr.2.id (specOffsets count c l) = some pr.1.2 := by
  intro l
  induction l with
  | nil => intro c _ pr hpr; simp [specOffsets] at hpr
  | cons ty rest ih =>
    intro c hnd pr hpr
    simp only [specOffsets, List.zip_cons_cons, List.mem_cons] at hpr
    rcases hpr with rfl | hpr
    · simp [List.lookup]
    · have h2 : pr.2 ∈ rest := (List.of_mem_zip hpr).2
      have hne : pr.2.id ≠ ty.id := by
        simp only [List.map_cons, List.nodup_cons] at hnd
        intro he
        exact hnd.1 (he ▸ List.mem_map_of_mem TypeInfo.id h2)
      have hrec := ih (round_up c ty.align + ty.size * count)
        (by simp only [List.map_cons, List.nodup_cons] at hnd; exact hnd.2) pr hpr
      have hbeq : (pr.2.id == ty.id) = false := beq_eq_false_iff_ne.mpr hne
      simp only [specOffsets, List.lookup, hbeq]
      exact hrec

theorem specOffsets_pairwise (count : Nat) :
    ∀ (l : List TypeInfo) (c : Nat), (∀ ty ∈ l, 0 < ty.align) →
      ((specOffsets count c l).zip l).Pairwise
        (fun pr qr => pr.1.2 + pr.2.size * count ≤ qr.1.2) := by
  intro l
  induction l with
  | nil => intro c _; simp [specOffsets]
  | cons ty rest ih =>
    intro c hpos
    simp only [specOffsets, List.zip_cons_cons]
    constructor
    · intro qr hqr
      obtain ⟨q, u⟩ := qr
      have hm := specOffsets_master count rest (round_up c ty.align + ty.size * count)
        (fun v hv => hpos v (by simp [hv]))
      have hq := (List.forall₂_iff_zip.mp hm).2 hqr
      exact hq.2.2.1
    · exact ih _ (fun u hu => hpos u (by simp [hu]))

/-! ### The swap-with-last compaction loop -/

theorem cfold_frame (ofs : TypeInfo → Nat) (i last : Nat) :
    ∀ (l : List TypeInfo) (d : Data) (addr : Nat),
      (∀ u ∈ l, ¬(ofs u + u.size * i ≤ addr ∧ addr < ofs u + u.size * i + u.size)) →
      l.foldl
          (fun d u => copyBytes d (ofs u + u.size * last) d (ofs u + u.size * i) u.size) d
          addr
        = d addr := by
  intro l
  induction l with
  | nil => intro d addr _; rfl
  | cons u rest ih =>
    intro d addr h
    simp only [List.foldl_cons]
    rw [ih _ addr (fun v hv => h v (by simp [hv]))]
    simp only [copyBytes]
    rw [if_neg (h u (by simp))]

theorem cfold_spec (ofs : TypeInfo → Nat) (i last L : Nat) (hi : i < L) (hl : last < L) :
    ∀ (l : List TypeInfo) (d : Data),
      l.Pairwise (fun t u => ofs t + t.size * L ≤ ofs u ∨ ofs u + u.size * L ≤ ofs t) →
      ∀ ty ∈ l, ∀ b, b < ty.size →
        l.foldl
            (fun d u => copyBytes d (ofs u + u.size * last) d (ofs u + u.size * i) u.size) d
            (ofs ty + ty.size * i + b)
          = d (ofs ty + ty.size * last + b) := by
  intro l
  induction l with
  | nil => intro d _ ty hty; simp at hty
  | cons u rest ih =>
    intro d hpw ty hty b hb
    have hhead := List.pairwise_cons.mp hpw
    simp only [List.foldl_cons]
    rcases List.mem_cons.mp hty with rfl | hmem
    · rw [cfold_frame ofs i last rest _ (ofs ty + ty.size * i + b) ?frame]
      · simp only [copyBytes]
        rw [if_pos ⟨by omega, by omega⟩]
        congr 1
        omega
      case frame =>
        intro v hv
        have hdisj := hhead.1 v hv
        have e1 : ty.size * (i + 1) ≤ ty.size * L := Nat.mul_le_mul_left _ (by omega)
        have e2 : v.size * (i + 1) ≤ v.size * L := Nat.mul_le_mul_left _ (by omega)
        have f1 : ty.size * (i + 1) = ty.size * i + ty.size := by ring
        have f2 : v.size * (i + 1) = v.size * i + v.size := by ring
        rcases hdisj with hD | hD
        · omega
        · omega
    · have hdisj := hhead.1 ty hmem
      rw [ih _ hhead.2 ty hmem b hb]
      simp only [copyBytes]
      rw [if_neg ?hno]
      case hno =>
        have e1 : ty.size * (last + 1) ≤ ty.size * L := Nat.mul_le_mul_left _ (by omega)
        have e2 : u.size * (i + 1) ≤ u.size * L := Nat.mul_le_mul_left _ (by omega)
        have f1 : ty.size * (last + 1) = ty.size * last + ty.size := by ring
        have f2 : u.size * (i + 1) = u.size * i + u.size := by ring
        rcases hdisj with hD | hD
        · omega
        · omega

theorem compactData_spec (a : Archetype) (i : Nat)
    (hi : i < a.len) (hne : i ≠ a.len - 1) (hdisj : ColumnsDisjoint a) :
    ∀ ty ∈ a.types, ∀ b, b < ty.size →
      compactData a i (colOff a ty + ty.size * i + b)
        = a.data (colOff a ty + ty.size * (a.len - 1) + b) := by
  intro ty hty b hb
  unfold compactData
  have hstep : (fun (d : Data) ty =>
      if i ≠ a.len - 1 then
        copyBytes d (colOff a ty + ty.size * (a.len - 1)) d
          (colOff a ty + ty.size * i) ty.size
      else d)
      = fun d u =>
          copyBytes d (colOff a u + u.size * (a.len - 1)) d
            (colOff a u + u.size * i) u.size := by
    funext d u
    rw [if_pos hne]
  rw [hstep]
  exact cfold_spec (colOff a) i (a.len - 1) a.len hi (by omega) a.types a.data hdisj
    ty hty b hb

/-! ### The reallocation copy loop -/

theorem afold_frame (A : Data) (srcf dstf cnt : TypeInfo → Nat) :
    ∀ (l : List TypeInfo) (d : Data) (addr : Nat),
      (∀ u ∈ l, ¬(dstf u ≤ addr ∧ addr < dstf u + cnt u)) →
      l.foldl (fun d u => copyBytes A (srcf u) d (dstf u) (cnt u)) d addr = d addr := by
  intro l
  induction l with
  | nil => intro d addr _; rfl
  | cons u rest ih =>
    intro d addr h
    simp only [List.foldl_cons]
    rw [ih _ addr (fun v hv => h v (by simp [hv]))]
    simp only [copyBytes]
    rw [if_neg (h u (by simp))]

theorem afold_spec (A : Data) (srcf dstf cnt : TypeInfo → Nat) :
    ∀ (l : List TypeInfo) (d : Data),
      l.Pairwise (fun t u => dstf t + cnt t ≤ dstf u) →
      ∀ ty ∈ l, ∀ off, off < cnt ty →
        l.foldl (fun d u => copyBytes A (srcf u) d (dstf u) (cnt u)) d (dstf ty + off)
          = A (srcf ty + off) := by
  intro l
  induction l with
  | nil => intro d _ ty hty; simp at hty
  | cons u rest ih =>
    intro d hpw ty hty off hoff
    have hhead := List.pairwise_cons.mp hpw
    simp only [List.foldl_cons]
    rcases List.mem_cons.mp hty with rfl | hmem
    · rw [afold_frame A srcf dstf cnt rest _ (dstf ty + off)
        (fun v hv => by have := hhead.1 v hv; omega)]
      simp only [copyBytes]
      rw [if_pos ⟨by omega, by omega⟩]
      congr 1
      omega
    · exact ih _ hhead.2 ty hmem off hoff

/-! ### Shapes of `remove`, `move_to` and `allocate` -/

theorem remove_shape (a : Archetype) (i : Nat) (h : i ≠ a.len - 1) :
    Archetype.remove a i
      = ({ a with
            data := compactData a i
            len := a.len - 1
            entities := a.entities.set i (a.entities.getD (a.len - 1) 0) },
          some ((a.entities.set i (a.entities.getD (a.len - 1) 0)).getD (a.len - 1) 0),
          a.types.map (fun ty => Event.dropCall (colOff a ty + ty.size * i) ty.id)) := by
  unfold Archetype.remove
  rw [compactFold_eq, if_pos h]

theorem remove_shape_last (a : Archetype) (i : Nat) (h : i = a.len - 1) :
    Archetype.remove a i
      = ({ a with len := a.len - 1 }, none,
          a.types.map (fun ty => Event.dropCall (colOff a ty + ty.size * i) ty.id)) := by
  unfold Archetype.remove
  rw [compactFold_eq, if_neg (by omega : ¬i ≠ a.len - 1), compactData_last a i h]

theorem move_to_shape (a : Archetype) (i : Nat) (h : i ≠ a.len - 1) :
    Archetype.move_to a i
      = (a.types.map (fun ty => Event.visit (colOff a ty + ty.size * i) ty.id ty.size),
          { a with
            data := compactData a i
            len := a.len - 1
            entities := a.entities.set i (a.entities.getD (a.len - 1) 0) }) := by
  unfold Archetype.move_to
  rw [compactFold_eq, if_pos h]

theorem move_to_shape_last (a : Archetype) (i : Nat) (h : i = a.len - 1) :
    Archetype.move_to a i
      = (a.types.map (fun ty => Event.visit (colOff a ty + ty.size * i) ty.id ty.size),
          { a with len := a.len - 1 }) := by
  unfold Archetype.move_to
  rw [compactFold_eq, if_neg (by omega : ¬i ≠ a.len - 1), compactData_last a i h]

theorem allocate_shape_grow (a : Archetype) (id : Nat) (h : ¬a.len < a.entities.length) :
    Archetype.allocate a id
      = ({ a with
            entities :=
              (a.entities ++
                List.replicate
                  ((if a.entities.length = 0 then 64 else a.entities.length * 2)
                    - a.entities.length) SENTINEL).set a.len id
            len := a.len + 1
            data :=
              if a.dataSize ≠ 0 then
                a.types.foldl
                  (fun d ty =>
                    copyBytes a.data ((List.lookup ty.id a.offsets).getD 0) d
                      ((List.lookup ty.id
                        (computeLayout a.types
                          (if a.entities.length = 0 then 64
                            else a.entities.length * 2)).1).getD 0)
                      (ty.size * a.entities.length))
                  (fun _ => none)
              else fun _ => none
            offsets :=
              (computeLayout a.types
                (if a.entities.length = 0 then 64 else a.entities.length * 2)).1
            dataSize :=
              (computeLayout a.types
                (if a.entities.length = 0 then 64 else a.entities.length * 2)).2 },
          a.len) := by
  unfold Archetype.allocate
  rw [if_neg h]

/-! ### C9: the descriptor order and equality -/

theorem cmp_lt_iff (a b : TypeInfo) :
    TypeInfo.cmp a b = Ordering.lt
      ↔ (b.align < a.align ∨ (a.align = b.align ∧ a.id < b.id)) := by
  unfold TypeInfo.cmp
  rcases Nat.lt_trichotomy a.align b.align with h | h | h
  · have hc : compare a.align b.align = Ordering.lt := Nat.compare_eq_lt.mpr h
    rw [hc]
    have hr : Ordering.lt.swap.then (compare a.id b.id) = Ordering.gt := rfl
    rw [hr]
    simp only [reduceCtorEq, false_iff]
    omega
  · have hc : compare a.align b.align = Ordering.eq := Nat.compare_eq_eq.mpr h
    rw [hc]
    have hr : Ordering.eq.swap.then (compare a.id b.id) = compare a.id b.id := rfl
    rw [hr, Nat.compare_eq_lt]
    omega
  · have hc : compare a.align b.align = Ordering.gt := Nat.compare_eq_gt.mpr h
    rw [hc]
    have hr : Ordering.gt.swap.then (compare a.id b.id) = Ordering.lt := rfl
    rw [hr]
    simp only [true_iff]
    omega

/-- C9: `TypeInfo`'s order is: `a < b` iff `align(a) > align(b)` or the
alignments tie and `id(a) < id(b)`; the induced strict relation is
irreflexive, transitive and total up to identity of the compared fields;
and both the comparison and equality are functions of the id and alignment
fields alone, never of the destructor thunk (equality in fact compares the
id only). -/
theorem typeinfo_order_spec :
    (∀ a b : TypeInfo,
      TypeInfo.cmp a b = Ordering.lt
        ↔ (b.align < a.align ∨ (a.align = b.align ∧ a.id < b.id)))
    ∧ (∀ a : TypeInfo, TypeInfo.cmp a a ≠ Ordering.lt)
    ∧ (∀ a b c : TypeInfo, TypeInfo.cmp a b = Ordering.lt →
        TypeInfo.cmp b c = Ordering.lt → TypeInfo.cmp a c = Ordering.lt)
    ∧ (∀ a b : TypeInfo, TypeInfo.cmp a b = Ordering.lt ∨ TypeInfo.cmp b a = Ordering.lt
        ∨ (a.align = b.align ∧ a.id = b.id))
    ∧ (∀ a b : TypeInfo, TypeInfo.beq a b = true ↔ a.id = b.id)
    ∧ (∀ (a b : TypeInfo) (d₁ d₂ : Nat),
        TypeInfo.cmp { a with drop := d₁ } { b with drop := d₂ } = TypeInfo.cmp a b
        ∧ TypeInfo.beq { a with drop := d₁ } { b with drop := d₂ } = TypeInfo.beq a b)
    ∧ (∀ a a' b b' : TypeInfo, a.id = a'.id → a.align = a'.align → b.id = b'.id →
        b.align = b'.align →
        TypeInfo.cmp a b = TypeInfo.cmp a' b' ∧ TypeInfo.beq a b = TypeInfo.beq a' b') := by
  refine ⟨cmp_lt_iff, ?_, ?_, ?_, ?_, ?_, ?_⟩
  · intro a
    simp only [ne_eq, cmp_lt_iff]
    omega
  · intro a b c hab hbc
    rw [cmp_lt_iff] at hab hbc ⊢
    omega
  · intro a b
    rw [cmp_lt_iff, cmp_lt_iff]
    omega
  · intro a b
    unfold TypeInfo.beq
    exact beq_iff_eq
  · intro a b d₁ d₂
    exact ⟨rfl, rfl⟩
  · intro a a' b b' h1 h2 h3 h4
    unfold TypeInfo.cmp TypeInfo.beq
    rw [h1, h2, h3, h4]
    exact ⟨rfl, rfl⟩

/-- Instance of the order contract at concrete descriptors: transitivity
through a middle alignment, established by applying `typeinfo_order_spec`. -/
theorem typeinfo_order_spec_witness :
    TypeInfo.cmp { id := 1, size := 0, align := 8, drop := 0 }
        { id := 9, size := 2, align := 2, drop := 3 } = Ordering.lt :=
  typeinfo_order_spec.2.2.1 { id := 1, size := 0, align := 8, drop := 0 }
    { id := 5, size := 1, align := 4, drop := 1 }
    { id := 9, size := 2, align := 2, drop := 3 } (by decide) (by decide)

/-! ### C10: `put` on an absent type panics -/

/-- C10: unlike `column`/`cell`, which yield `none` for a type id that is not
in the archetype, `put_dynamic` panics on its internal `unwrap` before
copying any bytes; the error result carries no archetype, so `len`, the
sidecar and the columns are untouched. -/
theorem put_absent_type_panics (a : Archetype) (src : Data) (ty s i : Nat)
    (hi : i < a.len) (habs : List.lookup ty a.offsets = none) :
    Archetype.column a ty = none
    ∧ get_dynamic a ty s i = Except.ok none
    ∧ put_dynamic a src ty s i = Except.error "Option unwrap failed" := by
  have hg : get_dynamic a ty s i = Except.ok none := by
    unfold get_dynamic
    rw [if_pos hi, habs]
    rfl
  refine ⟨habs, hg, ?_⟩
  unfold put_dynamic
  rw [hg]

/-- Instance of the absent-type contrast at a concrete archetype, by applying
`put_absent_type_panics` to type id 5, which `c7A` does not store. -/
theorem put_absent_type_panics_witness :
    Archetype.column c7A 5 = none
    ∧ get_dynamic c7A 5 4 1 = Except.ok none
    ∧ put_dynamic c7A someBytes 5 4 1 = Except.error "Option unwrap failed" :=
  put_absent_type_panics c7A someBytes 5 4 1 (by decide) (by decide)

/-! ### C7: no size check on `cell`/`put` -/

/-- C7 counterexample: `c7A` stores only `T1`, whose descriptor size is 4,
yet `get_dynamic`/`put_dynamic` called with size 8 at row 1 succeed — no
debug check compares the caller-supplied size with the descriptor size, and
the mismatched size is used for the address arithmetic (row 1 lands at
byte 8, not byte 4). -/
theorem size_mismatch_undetected :
    T1.size = 4
    ∧ c7A.types = [T1]
    ∧ get_dynamic c7A 1 8 1 = Except.ok (some 8)
    ∧ put_dynamic c7A someBytes 1 8 1
        = Except.ok { c7A with data := copyBytes someBytes 0 c7A.data 8 8 } :=
  ⟨rfl, rfl, rfl, rfl⟩

/-- C7 amended: in debug builds `cell` (`get_dynamic`) and `put`
(`put_dynamic`) check only the row bound `i < len`; the caller-supplied size
is never compared with the descriptor's size and is used directly for the
address arithmetic, for any size whatsoever. -/
theorem size_mismatch_unchecked (a : Archetype) (src : Data) (ty s i : Nat)
    (hi : i < a.len) :
    get_dynamic a ty s i
        = Except.ok ((List.lookup ty a.offsets).map (fun off => off + s * i))
    ∧ (∀ off, List.lookup ty a.offsets = some off →
        put_dynamic a src ty s i
          = Except.ok { a with data := copyBytes src 0 a.data (off + s * i) s }) := by
  have hg : get_dynamic a ty s i
      = Except.ok ((List.lookup ty a.offsets).map (fun off => off + s * i)) := by
    unfold get_dynamic
    rw [if_pos hi]
  refine ⟨hg, ?_⟩
  intro off hoff
  unfold put_dynamic
  rw [hg, hoff]
  rfl

/-- Instance of the amended C7 at a mismatched size (8 against descriptor
size 4), by applying `size_mismatch_unchecked`. -/
theorem size_mismatch_unchecked_witness :
    get_dynamic c7A 1 8 1
        = Except.ok ((List.lookup 1 c7A.offsets).map (fun off => off + 8 * 1))
    ∧ put_dynamic c7A someBytes 1 8 1
        = Except.ok { c7A with data := copyBytes someBytes 0 c7A.data (0 + 8 * 1) 8 } :=
  ⟨(size_mismatch_unchecked c7A someBytes 1 8 1 (by decide)).1,
    (size_mismatch_unchecked c7A someBytes 1 8 1 (by decide)).2 0 rfl⟩

/-! ### C8: `entity_id` performs no `i < len` check -/

/-- C8 counterexample: `c8A` has `len = 2` but sidecar capacity 4; calling
`entity_id` at rows 2 and 3 does not fail any check — it silently returns
the sentinel occupying the uninitialized sidecar slots. -/
theorem entity_id_unchecked :
    c8A.len = 2
    ∧ entity_id c8A 2 = Except.ok SENTINEL
    ∧ entity_id c8A 3 = Except.ok SENTINEL :=
  ⟨rfl, rfl, rfl⟩

/-- C8 amended: `cell` (`get_dynamic`) does debug-check `i < len`, but
`entity_id` checks the index only against the sidecar length (the capacity):
it fails (panics) when `i ≥ capacity` and silently returns the sidecar entry
for every `i < capacity`, including the uninitialized rows `len ≤ i`. -/
theorem row_bounds_checks (a : Archetype) (i : Nat) :
    (∀ ty s, a.len ≤ i →
      get_dynamic a ty s i = Except.error "assertion failed: index < self.len")
    ∧ (i < a.entities.length → entity_id a i = Except.ok (a.entities.getD i 0))
    ∧ (a.entities.length ≤ i → entity_id a i = Except.error "index out of bounds") := by
  refine ⟨?_, ?_, ?_⟩
  · intro ty s h
    unfold get_dynamic
    rw [if_neg (by omega)]
  · intro h
    unfold entity_id
    rw [if_pos h]
  · intro h
    unfold entity_id
    rw [if_neg (by omega)]

/-- Instance of the amended C8 at `c8A` (row 2 is `len ≤ 2 < capacity`), by
applying `row_bounds_checks`. -/
theorem row_bounds_checks_witness :
    get_dynamic c8A 1 4 2 = Except.error "assertion failed: index < self.len"
    ∧ entity_id c8A 2 = Except.ok (c8A.entities.getD 2 0)
    ∧ entity_id c8A 7 = Except.error "index out of bounds" :=
  ⟨(row_bounds_checks c8A 2).1 1 4 (by decide),
    (row_bounds_checks c8A 2).2.1 (by decide),
    (row_bounds_checks c8A 7).2.2 (by decide)⟩

/-! ### C1: swap-remove, C5/C6: migration -/

theorem entity_id_ok (a : Archetype) (i : Nat) (h : i < a.entities.length) :
    entity_id a i = Except.ok (a.entities.getD i 0) := by
  unfold entity_id
  rw [if_pos h]

/-- C1: `remove(i)` on an archetype with `len = L > 0` and `i < L` sets `len`
to `L-1`; when `i ≠ L-1` it copies each column's row `L-1` byte-for-byte over
row `i`, overwrites `entities[i]` with `entities[L-1]` and returns that id;
when `i = L-1` it returns `none` and leaves the buffer and sidecar unchanged.
In particular, after inserting entity ids 10, 20, 30, `remove(0)` returns 30,
`len = 2`, `entity_id(0) = 30` and `entity_id(1) = 20`. -/
theorem remove_swap_spec (a : Archetype) (i : Nat)
    (h0 : 0 < a.len) (hi : i < a.len) (hcap : a.len ≤ a.entities.length)
    (hlk : ∀ ty ∈ a.types, (List.lookup ty.id a.offsets).isSome = true)
    (hdisj : ColumnsDisjoint a) :
    (Archetype.remove a i).1.len = a.len - 1
    ∧ (i ≠ a.len - 1 →
        (∀ ty ∈ a.types, ∀ b, b < ty.size →
          (Archetype.remove a i).1.data (colOff a ty + ty.size * i + b)
            = a.data (colOff a ty + ty.size * (a.len - 1) + b))
        ∧ (Archetype.remove a i).1.entities.getD i 0 = a.entities.getD (a.len - 1) 0
        ∧ (Archetype.remove a i).2.1 = some (a.entities.getD (a.len - 1) 0))
    ∧ (i = a.len - 1 →
        (Archetype.remove a i).2.1 = none
        ∧ (Archetype.remove a i).1.data = a.data
        ∧ (Archetype.remove a i).1.entities = a.entities)
    ∧ ((Archetype.remove scen3 0).2.1 = some 30
        ∧ (Archetype.remove scen3 0).1.len = 2
        ∧ entity_id (Archetype.remove scen3 0).1 0 = Except.ok 30
        ∧ entity_id (Archetype.remove scen3 0).1 1 = Except.ok 20) := by
  refine ⟨?_, ?_, ?_, by decide, by decide, rfl, rfl⟩
  · by_cases h : i = a.len - 1
    · rw [remove_shape_last a i h]
    · rw [remove_shape a i h]
  · intro h
    rw [remove_shape a i h]
    refine ⟨?_, ?_, ?_⟩
    · intro ty hty b hb
      exact compactData_spec a i hi h hdisj ty hty b hb
    · exact getD_set_self a.entities i _ (by omega)
    · rw [getD_set_other a.entities i (a.len - 1) _ h]
  · intro h
    rw [remove_shape_last a i h]
    exact ⟨rfl, rfl, rfl⟩

/-- Instance of swap-remove at `arch2` (two columns, three rows, remove row
0), by applying `remove_swap_spec`. -/
theorem remove_swap_spec_witness :
    (Archetype.remove arch2 0).1.len = 2
    ∧ (Archetype.remove arch2 0).2.1 = some (arch2.entities.getD 2 0)
    ∧ (Archetype.remove arch2 0).1.data (colOff arch2 T1 + T1.size * 0 + 1)
        = arch2.data (colOff arch2 T1 + T1.size * 2 + 1) := by
  have h := remove_swap_spec arch2 0 (by decide) (by decide) (by decide) (by decide)
    (by unfold ColumnsDisjoint; decide)
  exact ⟨h.1, (h.2.1 (by decide)).2.2, (h.2.1 (by decide)).1 T1 (by decide) 1 (by decide)⟩

/-- C5: `move_to(i, visitor)` invokes the visitor once per descriptor, in
order, with the address, type id and size of row `i`'s slot; it records no
destructor-thunk call; and its effect on the archetype is exactly the
swap-with-last compaction of `remove` — the same state, with each column's
last row copied over row `i`, `entities[i]` overwritten by `entities[L-1]`
and `len` decremented. -/
theorem move_to_protocol (a : Archetype) (i : Nat)
    (h0 : 0 < a.len) (hi : i < a.len) (hcap : a.len ≤ a.entities.length)
    (hlk : ∀ ty ∈ a.types, (List.lookup ty.id a.offsets).isSome = true)
    (hdisj : ColumnsDisjoint a) :
    (Archetype.move_to a i).1
        = a.types.map (fun ty => Event.visit (colOff a ty + ty.size * i) ty.id ty.size)
    ∧ (∀ e ∈ (Archetype.move_to a i).1, ∀ p t, e ≠ Event.dropCall p t)
    ∧ (Archetype.move_to a i).2 = (Archetype.remove a i).1
    ∧ (Archetype.move_to a i).2.len = a.len - 1
    ∧ (i ≠ a.len - 1 →
        (∀ ty ∈ a.types, ∀ b, b < ty.size →
          (Archetype.move_to a i).2.data (colOff a ty + ty.size * i + b)
            = a.data (colOff a ty + ty.size * (a.len - 1) + b))
        ∧ (Archetype.move_to a i).2.entities.getD i 0
            = a.entities.getD (a.len - 1) 0) := by
  have hfst : (Archetype.move_to a i).1
      = a.types.map (fun ty => Event.visit (colOff a ty + ty.size * i) ty.id ty.size) := by
    by_cases h : i = a.len - 1
    · rw [move_to_shape_last a i h]
    · rw [move_to_shape a i h]
  refine ⟨hfst, ?_, ?_, ?_, ?_⟩
  · intro e he p t
    rw [hfst] at he
    obtain ⟨ty, hty, rfl⟩ := List.mem_map.mp he
    simp
  · by_cases h : i = a.len - 1
    · rw [move_to_shape_last a i h, remove_shape_last a i h]
    · rw [move_to_shape a i h, remove_shape a i h]
  · by_cases h : i = a.len - 1
    · rw [move_to_shape_last a i h]
    · rw [move_to_shape a i h]
  · intro h
    rw [move_to_shape a i h]
    exact ⟨fun ty hty b hb => compactData_spec a i hi h hdisj ty hty b hb,
      getD_set_self a.entities i _ (by omega)⟩

/-- Instance of the migration protocol at `arch2`, by applying
`move_to_protocol`. -/
theorem move_to_protocol_witness :
    (Archetype.move_to arch2 0).1
        = arch2.types.map
            (fun ty => Event.visit (colOff arch2 ty + ty.size * 0) ty.id ty.size)
    ∧ (Archetype.move_to arch2 0).2 = (Archetype.remove arch2 0).1 := by
  have h := move_to_protocol arch2 0 (by decide) (by decide) (by decide) (by decide)
    (by unfold ColumnsDisjoint; decide)
  exact ⟨h.1, h.2.2.1⟩

/-- C6 counterexample: the visitor-call sequence — besides the mutated
archetype the only information `move_to` passes out, its Rust return type
being unit — is identical for two sources whose displaced last entities
differ (30 in `c6A`, 99 in `c6B`).  So `move_to(0, visitor)` does not
return, nor hand to the visitor, the identifier of the entity moved into
row 0; the id is observable only by reading the mutated sidecar. -/
theorem move_to_returns_nothing :
    (Archetype.move_to c6A 0).1 = (Archetype.move_to c6B 0).1
    ∧ c6A.entities.getD 2 0 = 30
    ∧ c6B.entities.getD 2 0 = 99
    ∧ entity_id (Archetype.move_to c6A 0).2 0 = Except.ok 30
    ∧ entity_id (Archetype.move_to c6B 0).2 0 = Except.ok 99 :=
  ⟨by decide, rfl, rfl, rfl, rfl⟩

/-- C6 amended: `move_to` returns no value, unlike `remove`, and its visitor
receives only component addresses, type ids and sizes.  The displaced row's
identity is still recoverable by the registry, but only from the mutated
archetype: after `move_to(i)` with `i ≠ len-1`, reading `entity_id(i)`
yields the entity id that had occupied the last row. -/
theorem move_to_displaced_recoverable (a : Archetype) (i : Nat)
    (h0 : 0 < a.len) (hi : i < a.len) (hne : i ≠ a.len - 1)
    (hcap : a.len ≤ a.entities.length) :
    entity_id (Archetype.move_to a i).2 i
      = Except.ok (a.entities.getD (a.len - 1) 0) := by
  rw [move_to_shape a i hne]
  rw [entity_id_ok _ i
    (show i < (a.entities.set i (a.entities.getD (a.len - 1) 0)).length by
      rw [List.length_set]; omega)]
  show Except.ok ((a.entities.set i (a.entities.getD (a.len - 1) 0)).getD i 0) = _
  rw [getD_set_self a.entities i _ (by omega)]

/-- Instance of the amended C6 at `arch2`, by applying
`move_to_displaced_recoverable`. -/
theorem move_to_displaced_recoverable_witness :
    entity_id (Archetype.move_to arch2 0).2 0 = Except.ok (arch2.entities.getD 2 0) :=
  move_to_displaced_recoverable arch2 0 (by decide) (by decide) (by decide) (by decide)

/-! ### C2: allocate growth policy, C3: layout, C4: growth preservation -/

/-- C2: `allocate(id)` returns the old `len` as the new row index and writes
`id` into the sidecar at that row, incrementing `len`.  With spare capacity
(`len < capacity`) the sidecar keeps its length and the buffer, offsets and
buffer size are untouched; otherwise capacity becomes 64 (from 0) or doubles,
and the old `len` sidecar entries are copied over before the append. -/
theorem allocate_spec (a : Archetype) (id : Nat) (hcap : a.len ≤ a.entities.length) :
    (Archetype.allocate a id).2 = a.len
    ∧ (Archetype.allocate a id).1.len = a.len + 1
    ∧ (Archetype.allocate a id).1.entities.getD a.len 0 = id
    ∧ (∀ j, j < a.len →
        (Archetype.allocate a id).1.entities.getD j 0 = a.entities.getD j 0)
    ∧ (Archetype.allocate a id).1.entities.length
        = (if a.len < a.entities.length then a.entities.length
            else if a.entities.length = 0 then 64 else a.entities.length * 2)
    ∧ (a.len < a.entities.length →
        (Archetype.allocate a id).1.data = a.data
        ∧ (Archetype.allocate a id).1.offsets = a.offsets
        ∧ (Archetype.allocate a id).1.dataSize = a.dataSize) := by
  by_cases h : a.len < a.entities.length
  · have hshape : Archetype.allocate a id
        = ({ a with entities := a.entities.set a.len id, len := a.len + 1 }, a.len) := by
      unfold Archetype.allocate
      rw [if_pos h]
    rw [hshape]
    refine ⟨rfl, rfl, getD_set_self _ _ _ h, ?_, ?_, fun _ => ⟨rfl, rfl, rfl⟩⟩
    · intro j hj
      exact getD_set_other a.entities a.len j id (by omega)
    · show (a.entities.set a.len id).length = _
      rw [List.length_set, if_pos h]
  · rw [allocate_shape_grow a id h]
    have hcnt : a.entities.length
        < (if a.entities.length = 0 then 64 else a.entities.length * 2) := by
      rcases Nat.eq_zero_or_pos a.entities.length with hz | hz
      · rw [if_pos hz]; omega
      · rw [if_neg (by omega)]; omega
    have hlen1 : (a.entities ++
        List.replicate
          ((if a.entities.length = 0 then 64 else a.entities.length * 2)
            - a.entities.length) SENTINEL).length
        = (if a.entities.length = 0 then 64 else a.entities.length * 2) := by
      rw [List.length_append, List.length_replicate]
      omega
    refine ⟨rfl, rfl, ?_, ?_, ?_, fun hcontra => absurd hcontra h⟩
    · exact getD_set_self _ _ _ (by rw [hlen1]; omega)
    · intro j hj
      show ((a.entities ++ _).set a.len id).getD j 0 = _
      rw [getD_set_other _ a.len j id (by omega)]
      exact List.getD_append _ _ 0 j (by omega)
    · show ((a.entities ++ _).set a.len id).length = _
      rw [List.length_set, hlen1, if_neg h]

/-- Instance of the allocate contract in both regimes: in-place append on
`arch2` (spare capacity) and growth from capacity 2 to 4 on `archFull`,
by applying `allocate_spec`. -/
theorem allocate_spec_witness :
    (Archetype.allocate arch2 77).2 = arch2.len
    ∧ (Archetype.allocate arch2 77).1.entities.getD arch2.len 0 = 77
    ∧ (Archetype.allocate arch2 77).1.entities.length = 4
    ∧ (Archetype.allocate archFull 88).2 = archFull.len
    ∧ (Archetype.allocate archFull 88).1.entities.length = 4
    ∧ (Archetype.allocate archFull 88).1.entities.getD 1 0 = archFull.entities.getD 1 0 := by
  have h1 := allocate_spec arch2 77 (by decide)
  have h2 := allocate_spec archFull 88 (by decide)
  exact ⟨h1.1, h1.2.2.1, h1.2.2.2.2.1, h2.1, h2.2.2.2.2.1,
    h2.2.2.2.1 1 (by decide)⟩

/-- C3: for every descriptor sequence (with power-of-two alignments, and no
overflow, mirroring the code's `assert!` and `Layout` unwrap) the offsets
and total size computed on (re)allocation equal the spec's cursor algorithm
— round the cursor up to each alignment, record it, advance by
`size * count` — and consequently each recorded offset is a multiple of its
type's alignment. -/
theorem layout_algorithm_spec (types : List TypeInfo) (count : Nat)
    (hpow : ∀ ty ∈ types, ∃ k, k ≤ 63 ∧ ty.align = 2 ^ k)
    (hS : specSize count 0 types ≤ 2 ^ 63) :
    computeLayout types count = (specOffsets count 0 types, specSize count 0 types)
    ∧ List.Forall₂ (fun (p : Nat × Nat) ty => p.1 = ty.id ∧ p.2 % ty.align = 0)
        (computeLayout types count).1 types := by
  have hpos : ∀ ty ∈ types, 0 < ty.align := by
    intro ty hty
    obtain ⟨k, _, hal⟩ := hpow ty hty
    rw [hal]
    exact Nat.pos_pow_of_pos _ (by omega)
  have heq := computeLayout_eq_spec types count hpow hS
  refine ⟨heq, ?_⟩
  have hfst : (computeLayout types count).1 = specOffsets count 0 types := by rw [heq]
  rw [hfst]
  exact (specOffsets_master count types 0 hpos).imp (fun p ty hp => ⟨hp.1, hp.2.1⟩)

/-- Instance of the layout contract for the scenario types at capacity 64,
by applying `layout_algorithm_spec`. -/
theorem layout_algorithm_spec_witness :
    computeLayout [T1, T2] 64 = (specOffsets 64 0 [T1, T2], specSize 64 0 [T1, T2])
    ∧ List.Forall₂ (fun (p : Nat × Nat) ty => p.1 = ty.id ∧ p.2 % ty.align = 0)
        (computeLayout [T1, T2] 64).1 [T1, T2] :=
  layout_algorithm_spec [T1, T2] 64
    (by
      intro ty hty
      fin_cases hty
      · exact ⟨2, by omega, rfl⟩
      · exact ⟨0, by omega, rfl⟩)
    (by decide)

/-- C4: when `allocate` reallocates (`len = capacity`, here with a non-empty
old buffer, well-formed offsets and the layout preconditions), every byte of
every column's first `len` rows in the new buffer equals the corresponding
byte of the old buffer: the reallocation byte-copies each column's first
`len * size(T)` bytes to the column's new offset. -/
theorem growth_preserves_columns (a : Archetype) (id : Nat)
    (hfull : a.len = a.entities.length)
    (hnz : a.dataSize ≠ 0)
    (hnd : (a.types.map TypeInfo.id).Nodup)
    (hpow : ∀ ty ∈ a.types, ∃ k, k ≤ 63 ∧ ty.align = 2 ^ k)
    (hS : specSize (if a.entities.length = 0 then 64 else a.entities.length * 2) 0
        a.types ≤ 2 ^ 63) :
    ∀ ty ∈ a.types, ∀ j, j < a.len → ∀ b, b < ty.size →
      (Archetype.allocate a id).1.data
          ((List.lookup ty.id (Archetype.allocate a id).1.offsets).getD 0
            + ty.size * j + b)
        = a.data ((List.lookup ty.id a.offsets).getD 0 + ty.size * j + b) := by
  intro ty hty j hj b hb
  have hpos : ∀ u ∈ a.types, 0 < u.align := by
    intro u hu
    obtain ⟨k, _, hal⟩ := hpow u hu
    rw [hal]
    exact Nat.pos_pow_of_pos _ (by omega)
  have hnl : ¬a.len < a.entities.length := by omega
  simp only [allocate_shape_grow a id hnl]
  rw [if_pos hnz]
  have heq := computeLayout_eq_spec a.types
    (if a.entities.length = 0 then 64 else a.entities.length * 2) hpow hS
  have hfst : (computeLayout a.types
      (if a.entities.length = 0 then 64 else a.entities.length * 2)).1
      = specOffsets (if a.entities.length = 0 then 64 else a.entities.length * 2) 0
          a.types := by rw [heq]
  rw [hfst]
  have hlen : (specOffsets (if a.entities.length = 0 then 64 else a.entities.length * 2)
      0 a.types).length = a.types.length :=
    (specOffsets_master _ a.types 0 hpos).length_eq
  have hzip := specOffsets_pairwise
    (if a.entities.length = 0 then 64 else a.entities.length * 2) a.types 0 hpos
  have hlook := specOffsets_lookup
    (if a.entities.length = 0 then 64 else a.entities.length * 2) a.types 0 hnd
  have h1 : ((specOffsets (if a.entities.length = 0 then 64 else a.entities.length * 2)
        0 a.types).zip a.types).Pairwise
      (fun pr qr =>
        (List.lookup pr.2.id
          (specOffsets (if a.entities.length = 0 then 64 else a.entities.length * 2)
            0 a.types)).getD 0
          + pr.2.size * (if a.entities.length = 0 then 64 else a.entities.length * 2)
          ≤ (List.lookup qr.2.id
              (specOffsets (if a.entities.length = 0 then 64 else a.entities.length * 2)
                0 a.types)).getD 0) := by
    refine hzip.imp_of_mem ?_
    intro pr qr hpr hqr hle
    rw [hlook pr hpr, hlook qr hqr]
    simpa using hle
  have h2 := @List.Pairwise.map _ _ _
    ((specOffsets (if a.entities.length = 0 then 64 else a.entities.length * 2)
      0 a.types).zip a.types)
    (fun t u =>
      (List.lookup t.id
        (specOffsets (if a.entities.length = 0 then 64 else a.entities.length * 2)
          0 a.types)).getD 0
        + t.size * (if a.entities.length = 0 then 64 else a.entities.length * 2)
        ≤ (List.lookup u.id
            (specOffsets (if a.entities.length = 0 then 64 else a.entities.length * 2)
              0 a.types)).getD 0)
    Prod.snd (fun pr qr hh => hh) h1
  rw [map_snd_zip_of_length_eq _ _ hlen] at h2
  have hcnt : a.entities.length
      ≤ (if a.entities.length = 0 then 64 else a.entities.length * 2) := by
    rcases Nat.eq_zero_or_pos a.entities.length with hz | hz
    · rw [if_pos hz]; omega
    · rw [if_neg (by omega)]; omega
  have h4 : a.types.Pairwise (fun t u =>
      (List.lookup t.id
        (specOffsets (if a.entities.length = 0 then 64 else a.entities.length * 2)
          0 a.types)).getD 0
        + t.size * a.entities.length
        ≤ (List.lookup u.id
            (specOffsets (if a.entities.length = 0 then 64 else a.entities.length * 2)
              0 a.types)).getD 0) := h2.imp (fun {t u} hh => by
    have h5 : t.size * a.entities.length
        ≤ t.size * (if a.entities.length = 0 then 64 else a.entities.length * 2) :=
      Nat.mul_le_mul_left t.size hcnt
    omega)
  have hoff : ty.size * j + b < ty.size * a.entities.length := by
    have h5 : ty.size * (j + 1) ≤ ty.size * a.entities.length :=
      Nat.mul_le_mul_left _ (by omega)
    have h6 : ty.size * (j + 1) = ty.size * j + ty.size := by ring
    omega
  have hmain := afold_spec a.data
    (fun u => (List.lookup u.id a.offsets).getD 0)
    (fun u =>
      (List.lookup u.id
        (specOffsets (if a.entities.length = 0 then 64 else a.entities.length * 2)
          0 a.types)).getD 0)
    (fun u => u.size * a.entities.length)
    a.types (fun _ => none) h4 ty hty (ty.size * j + b) hoff
  simp only [Nat.add_assoc]
  exact hmain

/-- Instance of growth preservation at `archFull` (capacity 2 to 4), column
`T1`, row 1, byte 2, by applying `growth_preserves_columns`. -/
theorem growth_preserves_columns_witness :
    (Archetype.allocate archFull 88).1.data
        ((List.lookup 1 (Archetype.allocate archFull 88).1.offsets).getD 0
          + 4 * 1 + 2)
      = archFull.data ((List.lookup 1 archFull.offsets).getD 0 + 4 * 1 + 2) :=
  growth_preserves_columns archFull 88 rfl (by decide) (by decide)
    (by
      intro ty hty
      fin_cases hty
      · exact ⟨2, by omega, rfl⟩
      · exact ⟨0, by omega, rfl⟩)
    (by decide) T1 (by decide) 1 (by decide) 2 (by decide)
